import Mathlib

/-!
# Verification of the Chess-with-Kaelith core (Audio Playlist Engine and Profile Store)

Shallow embedding of `core/audio_manager.py` and `core/profile_manager.py`.

Modelling conventions:
* Python lists become `List`, Python dicts become insertion-ordered association
  lists `List (key × value)` (Python 3.7+ dicts preserve insertion order, keys
  are unique; `dict.values()` iterates in insertion order).
* `random.shuffle` / `random.randint` are modelled by an explicit oracle
  argument (a permutation, resp. a natural number reduced into range).
* `uuid.uuid4()` freshness is modelled by a monotone id counter carried in the
  store state; `datetime.now().isoformat()` (monotone, compared as strings in
  the code) is modelled by a monotone `Nat` clock carried in the store state.
* Python `%` on a possibly-negative index with a positive modulus is floor mod,
  which agrees with `Int.emod` for positive divisors.
* The pygame backend state read by the engine (`pygame.mixer.music.get_busy()`,
  `Path.exists()`) is modelled by an explicit environment record.
* Every operation is a total Lean function returning its Python result plus the
  updated state; totality models the "no exception escapes" contract.
-/

namespace CWK

/-- `Track` from `core/audio_manager.py` (the derived `display_name` is carried
as data; its derivation from the filename is not needed by any claim). -/
structure Track where
  filename : String
  display_name : String
  path : String
  category : String
  enabled : Bool := true
deriving DecidableEq, Repr

/-- `Playlist` from `core/audio_manager.py`.  The Python field `repeat` is a
Lean keyword, hence `repeat'`; `_shuffled_order` loses its underscore. -/
structure Playlist where
  name : String
  tracks : List Track := []
  current_index : Int := 0
  shuffle : Bool := false
  repeat' : Bool := true
  shuffled_order : List Nat := []
deriving DecidableEq, Repr

namespace Playlist

/-- `Playlist.get_enabled_tracks`. -/
def get_enabled_tracks (p : Playlist) : List Track :=
  p.tracks.filter (·.enabled)

/-- `Playlist.get_current_track`. -/
def get_current_track (p : Playlist) : Option Track :=
  let enabled := p.get_enabled_tracks
  if enabled.isEmpty then none
  else if p.shuffle && !p.shuffled_order.isEmpty then
    let idx := (p.current_index % (p.shuffled_order.length : Int)).toNat
    let i := p.shuffled_order.getD idx 0
    if i < enabled.length then enabled[i]? else enabled[0]?
  else
    enabled[(p.current_index % (enabled.length : Int)).toNat]?

/-- `Playlist._reshuffle`; `perm` stands for the output of `random.shuffle`
on `list(range(len(enabled)))`. -/
def reshuffle (p : Playlist) (perm : List Nat) : Playlist :=
  if p.get_enabled_tracks.isEmpty then p
  else { p with shuffled_order := perm }

/-- `Playlist.next_track`.  The cursor increment happens before the bounds
check and persists even when the function returns `None`. -/
def next_track (p : Playlist) (perm : List Nat) : Option Track × Playlist :=
  let enabled := p.get_enabled_tracks
  if enabled.isEmpty then (none, p)
  else
    let p1 := { p with current_index := p.current_index + 1 }
    if p1.current_index ≥ (enabled.length : Int) then
      if p1.repeat' then
        let p2 := { p1 with current_index := 0 }
        let p3 := if p2.shuffle then p2.reshuffle perm else p2
        (p3.get_current_track, p3)
      else (none, p1)
    else (p1.get_current_track, p1)

/-- `Playlist.previous_track`. -/
def previous_track (p : Playlist) : Option Track × Playlist :=
  let enabled := p.get_enabled_tracks
  if enabled.isEmpty then (none, p)
  else
    let p1 := { p with current_index := p.current_index - 1 }
    let p2 := if p1.current_index < 0
      then { p1 with current_index := (enabled.length : Int) - 1 }
      else p1
    (p2.get_current_track, p2)

/-- `Playlist.set_shuffle`. -/
def set_shuffle (p : Playlist) (enabled : Bool) (perm : List Nat) : Playlist :=
  let p1 := { p with shuffle := enabled }
  if enabled then p1.reshuffle perm else p1

end Playlist

/-! ## Insertion-ordered association lists (Python `dict` semantics) -/

/-- `d.get(k)` / `d[k]` on an insertion-ordered dict. -/
def lookupEntry {κ α : Type} [BEq κ] (k : κ) (l : List (κ × α)) : Option α :=
  (l.find? (fun e => e.1 == k)).map (·.2)

/-- In-place mutation of the value stored at key `k` (first matching entry;
a Python dict holds at most one entry per key). -/
def updateEntry {κ α : Type} [BEq κ] (k : κ) (f : α → α) : List (κ × α) → List (κ × α)
  | [] => []
  | e :: es => if e.1 == k then (e.1, f e.2) :: es else e :: updateEntry k f es

/-! ## AudioManager (`core/audio_manager.py`) -/

/-- External backend and filesystem state read by the engine:
`pygame.mixer.music.get_busy()` and `Path.exists()`. -/
structure AudioEnv where
  musicBusy : Bool := false
  fileExists : String → Bool := fun _ => true

/-- One category's entry of the persisted `playlist_config` settings value
(see `AudioManager.save_playlist_settings`). -/
structure PlaylistConfig where
  enabled_tracks : List String
  track_order : List String
  shuffle : Bool
  repeat' : Bool
deriving DecidableEq, Repr

/-- The per-playlist part of `AudioManager.save_playlist_settings`. -/
def savePlaylist (p : Playlist) : PlaylistConfig :=
  { enabled_tracks := (p.tracks.filter (·.enabled)).map (·.filename)
    track_order := p.tracks.map (·.filename)
    shuffle := p.shuffle
    repeat' := p.repeat' }

/-- The nested loop of `AudioManager._load_playlist_settings` restoring the
track order: for each filename in `track_order`, move the first remaining
track with that filename to the front; leftovers keep scan order at the end. -/
def reorderBy : List String → List Track → List Track
  | [], remaining => remaining
  | f :: fs, remaining =>
    match remaining.find? (fun tr => tr.filename == f) with
    | some tr => tr :: reorderBy fs (remaining.eraseP (fun tr => tr.filename == f))
    | none => reorderBy fs remaining

/-- The per-playlist body of `AudioManager._load_playlist_settings`: an empty
`enabled_tracks` or `track_order` list is falsy in Python, so that restore
step is skipped. -/
def applyConfig (p : Playlist) (c : PlaylistConfig) : Playlist :=
  let tracks1 := if c.enabled_tracks.isEmpty then p.tracks
    else p.tracks.map (fun tr => { tr with enabled := c.enabled_tracks.contains tr.filename })
  let tracks2 := if c.track_order.isEmpty then tracks1 else reorderBy c.track_order tracks1
  { p with tracks := tracks2, shuffle := c.shuffle, repeat' := c.repeat' }

/-- `AudioManager._load_playlist_settings`: iterate the persisted config and
mutate each playlist whose category is present. -/
def loadPlaylistSettings (ps : List (String × Playlist))
    (config : List (String × PlaylistConfig)) : List (String × Playlist) :=
  config.foldl (fun acc e =>
    if (lookupEntry e.1 acc).isSome
      then updateEntry e.1 (fun pl => applyConfig pl e.2) acc
      else acc) ps

/-- `AudioManager._scan_audio_files`: `catalog` maps each category to the
tracks found for it on disk, in scan order (tracks built by `Track.from_file`
carry `enabled := true`).  Categories with no matching file get no playlist. -/
def scanPlaylists (catalog : List (String × List Track)) : List (String × Playlist) :=
  catalog.filterMap (fun e =>
    if e.2.isEmpty then none
    else some (e.1, { name := e.1, tracks := e.2 }))

/-- Engine state (`AudioManager.__init__` fields; volume fields and the
track-change callback list are not needed by any claim and are omitted). -/
structure AudioManager where
  audioAvailable : Bool
  currentCategory : Option String := none
  currentTrack : Option Track := none
  isPlaying : Bool := false
  isPaused : Bool := false
  playlists : List (String × Playlist) := []
  effectsCache : List String := []
deriving Repr

namespace AudioManager

/-- `AudioManager.__init__`: scanning, effect preloading and playlist-config
restoration happen only when the backend initialised (`AUDIO_AVAILABLE`). -/
def init (available : Bool) (catalog : List (String × List Track))
    (effects : List String) (config : List (String × PlaylistConfig)) : AudioManager :=
  if available then
    { audioAvailable := true
      playlists := loadPlaylistSettings (scanPlaylists catalog) config
      effectsCache := effects }
  else { audioAvailable := false }

/-- `AudioManager.save_playlist_settings`: the value written to the settings
store under `"playlist_config"`. -/
def save_playlist_settings (m : AudioManager) : List (String × PlaylistConfig) :=
  m.playlists.map (fun e => (e.1, savePlaylist e.2))

/-- `AudioManager._play_track` (the pygame fadeout/load/play calls touch only
the backend; on success the four state fields are updated). -/
def play_track (m : AudioManager) (env : AudioEnv) (tr : Track) (category : String) :
    Option String × AudioManager :=
  if !m.audioAvailable || !env.fileExists tr.path then (none, m)
  else
    (some tr.display_name,
     { m with currentCategory := some category, currentTrack := some tr,
              isPlaying := true, isPaused := false })

/-- `AudioManager._start_playlist`; `rnd` models `random.randint(0, len-1)`. -/
def start_playlist (m : AudioManager) (env : AudioEnv) (category : String) (rnd : Nat) :
    Option String × AudioManager :=
  match lookupEntry category m.playlists with
  | none => (none, m)
  | some pl =>
    let pl := if pl.shuffle && !pl.get_enabled_tracks.isEmpty
      then { pl with current_index := ((rnd % pl.get_enabled_tracks.length : Nat) : Int) }
      else pl
    let m1 := { m with playlists := updateEntry category (fun _ => pl) m.playlists }
    match pl.get_current_track with
    | none => (none, m1)
    | some tr => m1.play_track env tr category

/-- `AudioManager.request_music`. -/
def request_music (m : AudioManager) (env : AudioEnv) (category : String)
    (force_restart : Bool) (rnd : Nat) : Option String × AudioManager :=
  if !m.audioAvailable then (none, m)
  else if m.currentCategory == some category && m.isPlaying && !force_restart
          && env.musicBusy then
    (none, m)
  else m.start_playlist env category rnd

/-- `AudioManager.play_next` (playlist cursor mutation persists even when no
track results). -/
def play_next (m : AudioManager) (env : AudioEnv) (perm : List Nat) :
    Option String × AudioManager :=
  match m.currentCategory with
  | none => (none, m)
  | some cat =>
    match lookupEntry cat m.playlists with
    | none => (none, m)
    | some pl =>
      let r := pl.next_track perm
      let m1 := { m with playlists := updateEntry cat (fun _ => r.2) m.playlists }
      match r.1 with
      | some tr => m1.play_track env tr cat
      | none => (none, m1)

/-- `AudioManager.play_previous`. -/
def play_previous (m : AudioManager) (env : AudioEnv) : Option String × AudioManager :=
  match m.currentCategory with
  | none => (none, m)
  | some cat =>
    match lookupEntry cat m.playlists with
    | none => (none, m)
    | some pl =>
      let r := pl.previous_track
      let m1 := { m with playlists := updateEntry cat (fun _ => r.2) m.playlists }
      match r.1 with
      | some tr => m1.play_track env tr cat
      | none => (none, m1)

/-- `AudioManager.stop_music`. -/
def stop_music (m : AudioManager) : AudioManager :=
  if m.audioAvailable && m.isPlaying then
    { m with isPlaying := false, isPaused := false,
             currentTrack := none, currentCategory := none }
  else m

/-- `AudioManager.pause_music`. -/
def pause_music (m : AudioManager) : AudioManager :=
  if m.audioAvailable && m.isPlaying && !m.isPaused then { m with isPaused := true } else m

/-- `AudioManager.resume_music`. -/
def resume_music (m : AudioManager) : AudioManager :=
  if m.audioAvailable && m.isPaused then { m with isPaused := false } else m

/-- `AudioManager.play_effect`: `sound.play()` touches only the backend mixer,
so engine state is unchanged on every path (unavailable backend, unknown
effect name, or successful trigger); the Python method returns `None`. -/
def play_effect (m : AudioManager) (_name : String) : AudioManager :=
  m

/-- `AudioManager.is_playing`. -/
def is_playing (m : AudioManager) (env : AudioEnv) : Bool :=
  if m.audioAvailable then env.musicBusy || m.isPaused else false

/-- `AudioManager.is_paused`. -/
def is_paused (m : AudioManager) : Bool :=
  m.isPaused

/-- `AudioManager.get_current_track_name`. -/
def get_current_track_name (m : AudioManager) : Option String :=
  m.currentTrack.map (·.display_name)

/-- The `for track in playlist.tracks: ... break` loop of
`AudioManager.set_track_enabled`: flips the flag on the first matching track. -/
def setEnabledFirst (filename : String) (enabled : Bool) : List Track → List Track
  | [] => []
  | tr :: ts =>
    if tr.filename == filename then { tr with enabled := enabled } :: ts
    else tr :: setEnabledFirst filename enabled ts

/-- `AudioManager.set_track_enabled` (first matching track only, then
`save_playlist_settings`; that settings write is the value of
`save_playlist_settings` on the new state and does not change engine state). -/
def set_track_enabled (m : AudioManager) (category filename : String) (enabled : Bool) :
    AudioManager :=
  match lookupEntry category m.playlists with
  | none => m
  | some _ =>
    let f := fun pl : Playlist =>
      { pl with tracks := setEnabledFirst filename enabled pl.tracks }
    { m with playlists := updateEntry category f m.playlists }

end AudioManager

/-- A public Audio Engine operation (the operations named by the degraded-mode
contract), with the oracle inputs each call consumes. -/
inductive AudioOp where
  | requestMusic (category : String) (forceRestart : Bool) (rnd : Nat)
  | playNext (perm : List Nat)
  | playPrevious
  | stopMusic
  | pauseMusic
  | resumeMusic
  | playEffect (name : String)
  | isPlayingQ
  | isPausedQ
  | currentTrackNameQ

/-- The Python return value of a public operation (`Optional[str]`, `bool`,
or `None` for procedures). -/
inductive AudioResult where
  | str (s : Option String)
  | bool (b : Bool)
  | unit
deriving DecidableEq, Repr

/-- A result is falsy iff it is `None`, `False`, or a procedure's `None`. -/
def AudioResult.falsy : AudioResult → Bool
  | .str s => s.isNone
  | .bool b => !b
  | .unit => true

/-- Dispatch one public operation. -/
def AudioManager.step (m : AudioManager) (env : AudioEnv) :
    AudioOp → AudioResult × AudioManager
  | .requestMusic c f r => let x := m.request_music env c f r; (.str x.1, x.2)
  | .playNext perm => let x := m.play_next env perm; (.str x.1, x.2)
  | .playPrevious => let x := m.play_previous env; (.str x.1, x.2)
  | .stopMusic => (.unit, m.stop_music)
  | .pauseMusic => (.unit, m.pause_music)
  | .resumeMusic => (.unit, m.resume_music)
  | .playEffect n => (.unit, m.play_effect n)
  | .isPlayingQ => (.bool (m.is_playing env), m)
  | .isPausedQ => (.bool m.is_paused, m)
  | .currentTrackNameQ => (.str m.get_current_track_name, m)

/-- Run a sequence of public operations, each under its own backend state,
collecting every result. -/
def AudioManager.runScript (m : AudioManager) :
    List (AudioEnv × AudioOp) → List AudioResult × AudioManager
  | [] => ([], m)
  | e :: rest =>
    let x := m.step e.1 e.2
    let y := x.2.runScript rest
    (x.1 :: y.1, y.2)

/-! ## ProfileManager (`core/profile_manager.py`) -/

/-- Python `str.isspace` characters (the ASCII ones; the nicknames this code
handles are keyboard input). -/
def pyIsSpace (c : Char) : Bool :=
  c == ' ' || c == '\t' || c == '\n' || c == '\r' || c == '\x0b' || c == '\x0c'

/-- Python `str.strip()`: drop leading and trailing whitespace. -/
def pyStrip (s : String) : String :=
  String.mk (((s.data.dropWhile pyIsSpace).reverse.dropWhile pyIsSpace).reverse)

/-- Python `str.lower()` (ASCII case folding). -/
def pyLower (s : String) : String :=
  String.mk (s.data.map Char.toLower)

/-- `PlayerProfile`.  `id` models the `uuid4` string, `created_at` /
`last_played` model ISO timestamp strings (whose lexicographic order is the
order of the moments they were taken). -/
structure PlayerProfile where
  id : Nat
  nickname : String
  created_at : Nat
  last_played : Nat
  games_played : Int := 0
  games_won : Int := 0
  games_lost : Int := 0
  games_draw : Int := 0
  current_level : Int := 1
  experience : Int := 0
deriving DecidableEq, Repr

/-- One keyword argument of `ProfileManager.update_profile`: a schema field
with its new value, or a key for which `hasattr` fails (silently ignored). -/
inductive ProfileUpdate where
  | nickname (v : String)
  | created_at (v : Nat)
  | last_played (v : Nat)
  | games_played (v : Int)
  | games_won (v : Int)
  | games_lost (v : Int)
  | games_draw (v : Int)
  | current_level (v : Int)
  | experience (v : Int)
  | idField (v : Nat)
  | unknownField
deriving DecidableEq, Repr

/-- `setattr(profile, key, value)` for one keyword argument. -/
def PlayerProfile.setField (p : PlayerProfile) : ProfileUpdate → PlayerProfile
  | .nickname v => { p with nickname := v }
  | .created_at v => { p with created_at := v }
  | .last_played v => { p with last_played := v }
  | .games_played v => { p with games_played := v }
  | .games_won v => { p with games_won := v }
  | .games_lost v => { p with games_lost := v }
  | .games_draw v => { p with games_draw := v }
  | .current_level v => { p with current_level := v }
  | .experience v => { p with experience := v }
  | .idField v => { p with id := v }
  | .unknownField => p

/-- The `for key, value in kwargs.items()` loop of `update_profile`. -/
def PlayerProfile.setFields (p : PlayerProfile) (us : List ProfileUpdate) : PlayerProfile :=
  us.foldl PlayerProfile.setField p

/-- Store state: `_profiles` is the insertion-ordered id→profile dict;
`nextId` models `uuid4` freshness, `clock` the monotone wall clock. -/
structure ProfileManager where
  profiles : List (Nat × PlayerProfile) := []
  active_profile_id : Option Nat := none
  nextId : Nat := 0
  clock : Nat := 0
deriving DecidableEq, Repr

namespace ProfileManager

/-- `MAX_PROFILES`. -/
def MAX_PROFILES : Nat := 5

/-- `self._profiles.values()` in insertion order. -/
def values (m : ProfileManager) : List PlayerProfile :=
  m.profiles.map (·.2)

/-- `PlayerProfile.create_new` (id and timestamps drawn from the store's
freshness/clock oracles). -/
def createNew (m : ProfileManager) (nickname : String) : PlayerProfile :=
  { id := m.nextId, nickname := nickname, created_at := m.clock, last_played := m.clock }

/-- `ProfileManager.create_profile`: capacity check, trim, empty check,
case-insensitive duplicate check, then insert and persist. -/
def create_profile (m : ProfileManager) (nickname : String) :
    Option PlayerProfile × ProfileManager :=
  if m.profiles.length ≥ MAX_PROFILES then (none, m)
  else
    let nickname := pyStrip nickname
    if nickname = "" then (none, m)
    else if m.values.any (fun p => pyLower p.nickname == pyLower nickname) then (none, m)
    else
      let p := m.createNew nickname
      (some p, { m with profiles := m.profiles ++ [(p.id, p)],
                        nextId := m.nextId + 1, clock := m.clock + 1 })

/-- `ProfileManager.get_profile`. -/
def get_profile (m : ProfileManager) (pid : Nat) : Option PlayerProfile :=
  lookupEntry pid m.profiles

/-- Stable insertion of a profile into a list sorted by `last_played`
descending: the new element goes after every element with a key ≥ its own. -/
def insertDesc (p : PlayerProfile) : List PlayerProfile → List PlayerProfile
  | [] => [p]
  | q :: qs =>
    if p.last_played < q.last_played then q :: insertDesc p qs
    else p :: q :: qs

/-- Stable sort by `last_played` descending.  This models Python's
`sorted(..., key=lambda p: p.last_played, reverse=True)`: a stable sort is
extensionally determined by its key order, so any stable implementation is
the faithful embedding. -/
def sortDesc : List PlayerProfile → List PlayerProfile
  | [] => []
  | p :: ps => insertDesc p (sortDesc ps)

/-- `ProfileManager.get_all_profiles`. -/
def get_all_profiles (m : ProfileManager) : List PlayerProfile :=
  sortDesc m.values

/-- `ProfileManager.delete_profile`. -/
def delete_profile (m : ProfileManager) (pid : Nat) : Bool × ProfileManager :=
  if m.profiles.any (fun e => e.1 == pid) then
    (true,
     { m with profiles := m.profiles.eraseP (fun e => e.1 == pid),
              active_profile_id :=
                if m.active_profile_id == some pid then none
                else m.active_profile_id })
  else (false, m)

/-- `ProfileManager.set_active_profile` (stamps `last_played` with the
current clock, then advances the clock past every timestamp taken so far). -/
def set_active_profile (m : ProfileManager) (pid : Nat) : Bool × ProfileManager :=
  if m.profiles.any (fun e => e.1 == pid) then
    (true,
     { m with active_profile_id := some pid,
              profiles := updateEntry pid (fun p => { p with last_played := m.clock }) m.profiles,
              clock := m.clock + 1 })
  else (false, m)

/-- `ProfileManager.get_active_profile`. -/
def get_active_profile (m : ProfileManager) : Option PlayerProfile :=
  match m.active_profile_id with
  | none => none
  | some aid => lookupEntry aid m.profiles

/-- `ProfileManager.update_profile`. -/
def update_profile (m : ProfileManager) (pid : Nat) (us : List ProfileUpdate) :
    Bool × ProfileManager :=
  if (lookupEntry pid m.profiles).isSome then
    (true, { m with profiles := updateEntry pid (fun p => p.setFields us) m.profiles })
  else (false, m)

end ProfileManager

/-- A public Profile Store operation. -/
inductive ProfileOp where
  | create (nickname : String)
  | delete (pid : Nat)
  | setActive (pid : Nat)
  | update (pid : Nat) (us : List ProfileUpdate)
deriving DecidableEq, Repr

/-- Apply one public operation, discarding its result. -/
def ProfileManager.applyOp (m : ProfileManager) : ProfileOp → ProfileManager
  | .create n => (m.create_profile n).2
  | .delete pid => (m.delete_profile pid).2
  | .setActive pid => (m.set_active_profile pid).2
  | .update pid us => (m.update_profile pid us).2

/-- Run a sequence of public operations. -/
def ProfileManager.run (m : ProfileManager) (ops : List ProfileOp) : ProfileManager :=
  ops.foldl ProfileManager.applyOp m

/-- The lower-cased nicknames of all stored profiles, in insertion order. -/
def ProfileManager.nickPool (m : ProfileManager) : List String :=
  m.values.map (fun p => pyLower p.nickname)

/-- Nickname uniqueness invariant: no two stored profiles have nicknames that
are equal up to case-insensitive comparison. -/
def ProfileManager.NickUnique (m : ProfileManager) : Prop :=
  m.nickPool.Nodup

instance (m : ProfileManager) : Decidable m.NickUnique :=
  inferInstanceAs (Decidable (List.Nodup _))

/-- Does this keyword argument target the `nickname` field? -/
def ProfileUpdate.isNickname : ProfileUpdate → Bool
  | .nickname _ => true
  | _ => false

/-- A public operation that never writes the `nickname` field through
`update_profile`. -/
def ProfileOp.noNicknameWrite : ProfileOp → Bool
  | .update _ us => us.all (fun u => !u.isNickname)
  | _ => true

/-- A concrete track used by counterexamples and witnesses. -/
def demoTrack (n : String) (enabled : Bool := true) : Track :=
  { filename := n ++ ".mp3", display_name := n, path := n ++ ".mp3",
    category := "battle", enabled := enabled }

/-- A concrete catalog used by witnesses. -/
def demoCatalog : List (String × List Track) :=
  [("battle", [demoTrack "a", demoTrack "b"])]

/-- A concrete engine: a scan of `demoCatalog` with track `a.mp3` disabled
through the public configuration operation. -/
def demoEngine : AudioManager :=
  (AudioManager.init true demoCatalog [] []).set_track_enabled "battle" "a.mp3" false

/-! # Theorems -/

/-- Record updates that only move the cursor keep the enabled-track list. -/
theorem get_enabled_set_index (p : Playlist) (i : Int) :
    (({ p with current_index := i } : Playlist)).get_enabled_tracks
      = p.get_enabled_tracks := rfl

/-- **C1**: if music of category `c` is playing (`is_playing` flag set, same
current category, backend channel busy), `request_music c` with
`force_restart = False` returns the no-change sentinel `None` and leaves the
whole engine state — in particular `current_track`, `current_category` and the
playback flags — unchanged. -/
theorem c1_request_music_idempotent (m : AudioManager) (env : AudioEnv)
    (c : String) (rnd : Nat)
    (hav : m.audioAvailable = true) (hcat : m.currentCategory = some c)
    (hplay : m.isPlaying = true) (hbusy : env.musicBusy = true) :
    m.request_music env c false rnd = (none, m) := by
  simp [AudioManager.request_music, hav, hcat, hplay, hbusy]

/-- Witness for C1 at a concrete engine state. -/
theorem c1_request_music_idempotent_witness :
    ({ audioAvailable := true, currentCategory := some "battle",
       currentTrack := some (demoTrack "a"), isPlaying := true } : AudioManager).request_music
      { musicBusy := true } "battle" false 0
      = (none, { audioAvailable := true, currentCategory := some "battle",
                 currentTrack := some (demoTrack "a"), isPlaying := true }) :=
  c1_request_music_idempotent _ _ _ _ rfl rfl rfl rfl

/-- When the incremented cursor stays strictly below the enabled count,
`next_track` only advances the cursor and reads the current track. -/
theorem next_track_mid (p : Playlist) (perm : List Nat)
    (hne : p.get_enabled_tracks.isEmpty = false)
    (hlt : p.current_index + 1 < (p.get_enabled_tracks.length : Int)) :
    p.next_track perm
      = (({ p with current_index := p.current_index + 1 } : Playlist).get_current_track,
         { p with current_index := p.current_index + 1 }) := by
  simp only [Playlist.next_track]
  rw [if_neg (by simp [hne])]
  rw [if_neg (by simpa using not_le.mpr hlt)]

/-- When the incremented cursor reaches the enabled count and `repeat` is
off, `next_track` returns `None` but keeps the incremented cursor. -/
theorem next_track_past_end (p : Playlist) (perm : List Nat)
    (hne : p.get_enabled_tracks.isEmpty = false)
    (hr : p.repeat' = false)
    (hge : p.current_index + 1 ≥ (p.get_enabled_tracks.length : Int)) :
    p.next_track perm = (none, { p with current_index := p.current_index + 1 }) := by
  simp only [Playlist.next_track]
  rw [if_neg (by simp [hne])]
  rw [if_pos (by simpa using hge)]
  simp [hr]

/-- When the incremented cursor reaches the enabled count, `repeat` is on and
shuffle is off, `next_track` resets the cursor to 0. -/
theorem next_track_wrap_noshuffle (p : Playlist) (perm : List Nat)
    (hne : p.get_enabled_tracks.isEmpty = false)
    (hr : p.repeat' = true) (hs : p.shuffle = false)
    (hge : p.current_index + 1 ≥ (p.get_enabled_tracks.length : Int)) :
    p.next_track perm
      = (({ p with current_index := 0 } : Playlist).get_current_track,
         { p with current_index := 0 }) := by
  simp only [Playlist.next_track]
  rw [if_neg (by simp [hne])]
  rw [if_pos (by simpa using hge)]
  simp [hr, hs]

/-- When the incremented cursor reaches the enabled count, `repeat` is on and
shuffle is on, `next_track` resets the cursor to 0 and regenerates the
shuffle order. -/
theorem next_track_wrap_shuffle (p : Playlist) (perm : List Nat)
    (hne : p.get_enabled_tracks.isEmpty = false)
    (hr : p.repeat' = true) (hs : p.shuffle = true)
    (hge : p.current_index + 1 ≥ (p.get_enabled_tracks.length : Int)) :
    p.next_track perm
      = (({ p with current_index := 0, shuffled_order := perm } : Playlist).get_current_track,
         { p with current_index := 0, shuffled_order := perm }) := by
  obtain ⟨nm, ts, ci, sh, rp, so⟩ := p
  dsimp only at hr hs
  subst hr; subst hs
  simp only [Playlist.next_track]
  rw [if_neg (by simp only [Playlist.get_enabled_tracks] at hne ⊢; simp [hne])]
  rw [if_pos (by simpa using hge)]
  simp [Playlist.reshuffle, Playlist.get_enabled_tracks,
    Playlist.get_enabled_tracks] at hne ⊢
  have hforall : ¬ (∀ a ∈ ts, a.enabled = false) := by
    obtain ⟨x, hx, hxe⟩ := hne
    intro h; exact absurd (h x hx) (by simp [hxe])
  rw [if_neg hforall]
  exact ⟨rfl, fun h => absurd h hforall⟩

/-- With shuffle off, `get_current_track` reads the enabled list at the
cursor reduced modulo its length. -/
theorem get_current_track_noshuffle (p : Playlist) (hs : p.shuffle = false)
    (hne : p.get_enabled_tracks.isEmpty = false) :
    p.get_current_track
      = p.get_enabled_tracks[(p.current_index % (p.get_enabled_tracks.length : Int)).toNat]? := by
  simp only [Playlist.get_current_track]
  rw [if_neg (by simp [hne])]
  simp [hs]

/-- **C7**: with `repeat = False` and the cursor on the last enabled track,
`next_track` returns `None` instead of looping. -/
theorem c7_next_track_stops_at_end (p : Playlist) (perm : List Nat)
    (hr : p.repeat' = false)
    (hne : p.get_enabled_tracks ≠ [])
    (hcur : p.current_index = (p.get_enabled_tracks.length : Int) - 1) :
    (p.next_track perm).1 = none := by
  rw [next_track_past_end p perm (by simpa using hne) hr (by rw [hcur]; omega)]

/-- Witness for C7 at a concrete playlist. -/
theorem c7_next_track_stops_at_end_witness :
    (({ name := "battle", tracks := [demoTrack "a", demoTrack "b"],
        current_index := 1, repeat' := false } : Playlist).next_track []).1 = none :=
  c7_next_track_stops_at_end _ _ rfl (by decide) (by decide)

/-- **C10**: with `repeat = False` and shuffle off, after `next_track`
returns `None` at the end of the list, the cursor sits one past the last
enabled index, so `get_current_track` wraps modulo and returns the first
enabled track rather than `None`. -/
theorem c10_cursor_past_end_wraps (p : Playlist) (perm : List Nat)
    (hr : p.repeat' = false) (hs : p.shuffle = false)
    (hne : p.get_enabled_tracks ≠ [])
    (hcur : p.current_index = (p.get_enabled_tracks.length : Int) - 1) :
    (p.next_track perm).1 = none ∧
    (p.next_track perm).2.current_index = (p.get_enabled_tracks.length : Int) ∧
    (p.next_track perm).2.get_current_track = p.get_enabled_tracks.head? := by
  have hne' : p.get_enabled_tracks.isEmpty = false := by simpa using hne
  have hstep := next_track_past_end p perm hne' hr (by rw [hcur]; omega)
  rw [hstep, hcur]
  refine ⟨rfl, by dsimp only; ring, ?_⟩
  change ({ p with current_index := (p.get_enabled_tracks.length : Int) - 1 + 1 } :
    Playlist).get_current_track = p.get_enabled_tracks.head?
  rw [get_current_track_noshuffle
    ({ p with current_index := (p.get_enabled_tracks.length : Int) - 1 + 1 } : Playlist) hs hne']
  simp only [get_enabled_set_index]
  rw [show ((p.get_enabled_tracks.length : Int) - 1 + 1) = (p.get_enabled_tracks.length : Int)
    by ring]
  rw [Int.emod_self]
  simp [List.head?_eq_getElem?]

/-- Witness for C10 at a concrete playlist. -/
theorem c10_cursor_past_end_wraps_witness :
    let p : Playlist := { name := "battle", tracks := [demoTrack "a", demoTrack "b"],
                          current_index := 1, repeat' := false }
    (p.next_track []).1 = none ∧
    (p.next_track []).2.current_index = 2 ∧
    (p.next_track []).2.get_current_track = some (demoTrack "a") :=
  c10_cursor_past_end_wraps _ [] rfl rfl (by decide) (by decide)

/-- **C6 counterexample**: a playlist with exactly 3 enabled tracks,
`repeat = True`, shuffle off and cursor at 0, on which the *fourth*
`next_track` call returns the track at index 1, not the track at index 0
(the cycle has length 3, so three calls — not four — return to index 0). -/
theorem c6_counterexample :
    let p0 : Playlist := { name := "battle",
                           tracks := [demoTrack "a", demoTrack "b", demoTrack "c"] }
    let r4 := ((((p0.next_track []).2.next_track []).2.next_track []).2.next_track [])
    r4.1 ≠ p0.get_enabled_tracks[0]? ∧ r4.1 = p0.get_enabled_tracks[1]? := by
  decide

/-- **C6 (amended)**: for every Playlist with exactly 3 enabled tracks,
`repeat = True` and cursor at index 0, calling `next_track()` *three* times
returns to the track at index 0 (cycle length 3): with shuffle off the third
call returns the track at enabled index 0 and the cursor is back at 0; with
shuffle on, the shuffle order is recomputed on the wraparound (the third
call's playlist carries the freshly drawn permutation). -/
theorem c6_cycle_length_three (p : Playlist) (perm1 perm2 perm3 : List Nat)
    (hr : p.repeat' = true)
    (hlen : p.get_enabled_tracks.length = 3) (hcur : p.current_index = 0) :
    (p.shuffle = false →
      (let r3 := (((p.next_track perm1).2.next_track perm2).2.next_track perm3)
       r3.1 = p.get_enabled_tracks[0]? ∧ r3.2.current_index = 0)) ∧
    (p.shuffle = true →
      (let r3 := (((p.next_track perm1).2.next_track perm2).2.next_track perm3)
       r3.2.shuffled_order = perm3 ∧ r3.2.current_index = 0)) := by
  obtain ⟨nm, ts, ci, sh, rp, so⟩ := p
  simp only [Playlist.get_enabled_tracks] at hlen
  dsimp only at hr hcur
  subst hr; subst hcur
  have hne : (ts.filter (fun tr => tr.enabled)).isEmpty = false := by
    cases h : ts.filter (fun tr => tr.enabled) with
    | nil => rw [h] at hlen; simp at hlen
    | cons a l => simp
  have h1 := next_track_mid (Playlist.mk nm ts 0 sh true so) perm1 hne
    (by show (0 : Int) + 1 < ((ts.filter (fun tr => tr.enabled)).length : Int)
        rw [hlen]; norm_num)
  have h2 := next_track_mid (Playlist.mk nm ts (0 + 1) sh true so) perm2 hne
    (by show (0 : Int) + 1 + 1 < ((ts.filter (fun tr => tr.enabled)).length : Int)
        rw [hlen]; norm_num)
  have hge3 : (0 : Int) + 1 + 1 + 1 ≥ ((ts.filter (fun tr => tr.enabled)).length : Int) := by
    rw [hlen]; norm_num
  constructor
  · intro hs
    dsimp only at hs
    subst hs
    have h3 := next_track_wrap_noshuffle (Playlist.mk nm ts (0 + 1 + 1) false true so)
      perm3 hne rfl rfl hge3
    rw [h1]; dsimp only
    rw [h2]; dsimp only
    rw [h3]; dsimp only
    refine ⟨?_, rfl⟩
    rw [get_current_track_noshuffle (Playlist.mk nm ts 0 false true so) rfl hne]
    simp [Playlist.get_enabled_tracks]
  · intro hs
    dsimp only at hs
    subst hs
    have h3 := next_track_wrap_shuffle (Playlist.mk nm ts (0 + 1 + 1) true true so)
      perm3 hne rfl rfl hge3
    rw [h1]; dsimp only
    rw [h2]; dsimp only
    rw [h3]; dsimp only
    exact ⟨rfl, rfl⟩

/-- Witness for the amended C6 at a concrete playlist (both shuffle cases,
via the two implications at `shuffle := false` here). -/
theorem c6_cycle_length_three_witness :
    let p : Playlist := { name := "battle",
                          tracks := [demoTrack "a", demoTrack "b", demoTrack "c"] }
    let r3 := (((p.next_track []).2.next_track []).2.next_track [])
    r3.1 = p.get_enabled_tracks[0]? ∧ r3.2.current_index = 0 :=
  (c6_cycle_length_three _ [] [] [] rfl (by decide) rfl).1 rfl


/-- Appending a fresh key to an association list makes lookup find it. -/
theorem lookupEntry_append_fresh {α : Type} (l : List (Nat × α)) (k : Nat) (v : α)
    (h : ∀ e ∈ l, e.1 ≠ k) : lookupEntry k (l ++ [(k, v)]) = some v := by
  induction l with
  | nil => simp [lookupEntry]
  | cons e es ih =>
    have hek : (e.1 == k) = false := by
      simpa using h e (by simp)
    simp only [lookupEntry, List.cons_append, List.find?]
    rw [hek]
    exact ih (fun e' he' => h e' (by simp [he']))

/-- **C5**: for a store below capacity and a nickname that is non-empty after
trimming and not a case-insensitive duplicate of any stored nickname,
`create_profile` returns a profile `P` with `P.nickname = N.strip()` and
`get_profile P.id` finds exactly `P`.  (`hfresh` is the `uuid4` freshness
assumption, maintained by the id-counter model.) -/
theorem c5_create_profile_success (m : ProfileManager) (N : String)
    (hcap : m.profiles.length < ProfileManager.MAX_PROFILES)
    (hne : pyStrip N ≠ "")
    (hdup : ∀ p ∈ m.values, pyLower p.nickname ≠ pyLower (pyStrip N))
    (hfresh : ∀ e ∈ m.profiles, e.1 < m.nextId) :
    ∃ P, (m.create_profile N).1 = some P ∧ P.nickname = pyStrip N ∧
      (m.create_profile N).2.get_profile P.id = some P := by
  have hany : (m.values.any fun p => pyLower p.nickname == pyLower (pyStrip N)) = false := by
    simp only [List.any_eq_false]
    intro p hp
    simpa using hdup p hp
  have hcreate : m.create_profile N
      = (some (m.createNew (pyStrip N)),
         { m with profiles := m.profiles ++ [(m.nextId, m.createNew (pyStrip N))],
                  nextId := m.nextId + 1, clock := m.clock + 1 }) := by
    simp only [ProfileManager.create_profile]
    rw [if_neg (by omega), if_neg hne, if_neg (by simp [hany])]
    rfl
  refine ⟨m.createNew (pyStrip N), by rw [hcreate], rfl, ?_⟩
  rw [hcreate]
  exact lookupEntry_append_fresh m.profiles m.nextId _
    (fun e he => Nat.ne_of_lt (hfresh e he))

/-- Witness for C5: creating `" Alice "` in the empty store. -/
theorem c5_create_profile_success_witness :
    ∃ P, (({} : ProfileManager).create_profile " Alice ").1 = some P ∧
      P.nickname = pyStrip " Alice " ∧
      (({} : ProfileManager).create_profile " Alice ").2.get_profile P.id = some P :=
  c5_create_profile_success {} " Alice " (by decide) (by decide)
    (by intro p hp; simp [ProfileManager.values] at hp) (by intro e he; simp at he)

/-- Erasing the entry of one key does not change the lookup of another key. -/
theorem lookupEntry_eraseP_ne {α : Type} (l : List (Nat × α)) (aid pid : Nat)
    (h : aid ≠ pid) :
    lookupEntry aid (l.eraseP (fun e => e.1 == pid)) = lookupEntry aid l := by
  induction l with
  | nil => rfl
  | cons e es ih =>
    by_cases hep : e.1 = pid
    · have hne2 : (e.1 == aid) = false := by
        simpa using (show e.1 ≠ aid by omega)
      rw [List.eraseP_cons_of_pos (by simpa using hep)]
      simp [lookupEntry, List.find?, hne2]
    · rw [List.eraseP_cons_of_neg (by simpa using hep)]
      by_cases hea : e.1 = aid
      · simp [lookupEntry, List.find?, hea]
      · have hne2 : (e.1 == aid) = false := by simpa using hea
        simp only [lookupEntry, List.find?, hne2]
        simpa [lookupEntry] using ih

/-- **C9**: deleting the profile referenced by the active id makes
`get_active_profile` return `None`; deleting any other existing profile
leaves the active reference and `get_active_profile` unchanged. -/
theorem c9_delete_profile_active_frame (m : ProfileManager) (pid : Nat)
    (hex : (m.profiles.any fun e => e.1 == pid) = true) :
    (m.active_profile_id = some pid →
      (m.delete_profile pid).2.get_active_profile = none) ∧
    (m.active_profile_id ≠ some pid →
      (m.delete_profile pid).2.active_profile_id = m.active_profile_id ∧
      (m.delete_profile pid).2.get_active_profile = m.get_active_profile) := by
  constructor
  · intro hact
    simp [ProfileManager.delete_profile, hex, hact, ProfileManager.get_active_profile]
  · intro hact
    have hbeq : (m.active_profile_id == some pid) = false := by
      simpa using hact
    have hstate : (m.delete_profile pid).2
        = { m with profiles := m.profiles.eraseP (fun e => e.1 == pid) } := by
      simp [ProfileManager.delete_profile, hex, hbeq]
    rw [hstate]
    refine ⟨rfl, ?_⟩
    simp only [ProfileManager.get_active_profile]
    cases haid : m.active_profile_id with
    | none => rfl
    | some aid =>
      have : aid ≠ pid := by
        intro hh; exact hact (by rw [haid, hh])
      exact lookupEntry_eraseP_ne m.profiles aid pid this

/-- Witness for C9 on a concrete two-profile store (both parts exercised by
instantiating at the active and at the non-active profile id). -/
theorem c9_delete_profile_active_frame_witness :
    let pA : PlayerProfile := { id := 0, nickname := "Alice", created_at := 0, last_played := 0 }
    let pB : PlayerProfile := { id := 1, nickname := "Bob", created_at := 1, last_played := 1 }
    let m : ProfileManager :=
      { profiles := [(0, pA), (1, pB)], active_profile_id := some 0, nextId := 2, clock := 2 }
    (m.delete_profile 0).2.get_active_profile = none ∧
    ((m.delete_profile 1).2.active_profile_id = m.active_profile_id ∧
     (m.delete_profile 1).2.get_active_profile = m.get_active_profile) := by
  refine ⟨?_, ?_⟩
  · exact (c9_delete_profile_active_frame _ 0 (by decide)).1 (by decide)
  · exact (c9_delete_profile_active_frame _ 1 (by decide)).2 (by decide)

/-- `insertDesc` inserts its element somewhere in the list. -/
theorem insertDesc_perm (p : PlayerProfile) (l : List PlayerProfile) :
    (ProfileManager.insertDesc p l).Perm (p :: l) := by
  induction l with
  | nil => exact List.Perm.refl _
  | cons q qs ih =>
    simp only [ProfileManager.insertDesc]
    by_cases h : p.last_played < q.last_played
    · rw [if_pos h]
      exact (ih.cons q).trans (List.Perm.swap p q qs)
    · rw [if_neg h]

/-- `sortDesc` permutes its input. -/
theorem sortDesc_perm (l : List PlayerProfile) :
    (ProfileManager.sortDesc l).Perm l := by
  induction l with
  | nil => exact List.Perm.refl _
  | cons p ps ih =>
    exact (insertDesc_perm p (ProfileManager.sortDesc ps)).trans (ih.cons p)

/-- `insertDesc` preserves sortedness by `last_played` descending. -/
theorem insertDesc_pairwise (p : PlayerProfile) (l : List PlayerProfile)
    (hl : l.Pairwise (fun a b => b.last_played ≤ a.last_played)) :
    (ProfileManager.insertDesc p l).Pairwise
      (fun a b => b.last_played ≤ a.last_played) := by
  induction l with
  | nil => simp [ProfileManager.insertDesc]
  | cons q qs ih =>
    rw [List.pairwise_cons] at hl
    obtain ⟨hq, hqs⟩ := hl
    simp only [ProfileManager.insertDesc]
    by_cases h : p.last_played < q.last_played
    · rw [if_pos h]
      rw [List.pairwise_cons]
      refine ⟨?_, ih hqs⟩
      intro b hb
      rcases List.mem_cons.mp ((insertDesc_perm p qs).mem_iff.mp hb) with hb' | hb'
      · subst hb'; omega
      · exact hq b hb' 
    · rw [if_neg h]
      rw [List.pairwise_cons]
      refine ⟨?_, List.pairwise_cons.mpr ⟨hq, hqs⟩⟩
      intro b hb
      rcases List.mem_cons.mp hb with hb' | hb'
      · subst hb'; omega
      · exact le_trans (hq b hb') (by omega)

/-- Inserting an element whose key matches `v` puts it in front of every
matching element (everything it skips has a strictly larger key). -/
theorem insertDesc_filter_eq (p : PlayerProfile) (l : List PlayerProfile) (v : Nat)
    (hv : (p.last_played == v) = true) :
    (ProfileManager.insertDesc p l).filter (fun q => q.last_played == v)
      = p :: l.filter (fun q => q.last_played == v) := by
  have hpv : p.last_played = v := by simpa using hv
  induction l with
  | nil => simp [ProfileManager.insertDesc, hv]
  | cons q qs ih =>
    simp only [ProfileManager.insertDesc]
    by_cases h : p.last_played < q.last_played
    · have hqv : (q.last_played == v) = false := by
        simpa using (show q.last_played ≠ v by omega)
      rw [if_pos h]
      simp only [List.filter_cons, hqv]
      exact ih
    · rw [if_neg h]
      simp [List.filter_cons, hv]

/-- Inserting a non-matching element leaves the matching sublist unchanged. -/
theorem insertDesc_filter_ne (p : PlayerProfile) (l : List PlayerProfile) (v : Nat)
    (hv : (p.last_played == v) = false) :
    (ProfileManager.insertDesc p l).filter (fun q => q.last_played == v)
      = l.filter (fun q => q.last_played == v) := by
  induction l with
  | nil => simp [ProfileManager.insertDesc, hv]
  | cons q qs ih =>
    simp only [ProfileManager.insertDesc]
    by_cases h : p.last_played < q.last_played
    · rw [if_pos h]
      simp only [List.filter_cons]
      rw [ih]
    · rw [if_neg h]
      simp [List.filter_cons, hv]

/-- Stability of `sortDesc`: the elements of each `last_played` class keep
their relative (insertion) order. -/
theorem sortDesc_filter (l : List PlayerProfile) (v : Nat) :
    (ProfileManager.sortDesc l).filter (fun q => q.last_played == v)
      = l.filter (fun q => q.last_played == v) := by
  induction l with
  | nil => rfl
  | cons p ps ih =>
    simp only [ProfileManager.sortDesc]
    by_cases hp : (p.last_played == v) = true
    · rw [insertDesc_filter_eq _ _ _ hp, ih]
      simp [List.filter_cons, hp]
    · have hp' : (p.last_played == v) = false := by simpa using hp
      rw [insertDesc_filter_ne _ _ _ hp', ih]
      simp [List.filter_cons, hp']

/-- **C8**: `get_all_profiles` returns all stored profiles (a permutation of
the stored values), sorted by `last_played` descending, and profiles with
equal `last_played` appear in insertion order (the per-key filtered
subsequences coincide with the store's insertion order). -/
theorem c8_get_all_profiles_sorted_stable (m : ProfileManager) :
    m.get_all_profiles.Pairwise (fun a b => b.last_played ≤ a.last_played) ∧
    m.get_all_profiles.Perm m.values ∧
    (∀ v : Nat, m.get_all_profiles.filter (fun p => p.last_played == v)
      = m.values.filter (fun p => p.last_played == v)) := by
  refine ⟨?_, sortDesc_perm m.values, fun v => sortDesc_filter m.values v⟩
  show (ProfileManager.sortDesc m.values).Pairwise _
  induction m.values with
  | nil => simp [ProfileManager.sortDesc]
  | cons p ps ih =>
    exact insertDesc_pairwise p _ ih

/-- A keyword-update list that never writes `nickname` leaves it unchanged. -/
theorem setFields_nickname (p : PlayerProfile) (us : List ProfileUpdate)
    (h : ∀ u ∈ us, u.isNickname = false) :
    (p.setFields us).nickname = p.nickname := by
  induction us generalizing p with
  | nil => rfl
  | cons u us ih =>
    have hu := h u (by simp)
    have hrest : ∀ u' ∈ us, u'.isNickname = false := fun u' hu' => h u' (by simp [hu'])
    rw [show p.setFields (u :: us) = (p.setField u).setFields us from rfl]
    rw [ih _ hrest]
    cases u <;> simp [PlayerProfile.setField, ProfileUpdate.isNickname] at hu ⊢

/-- Updating one entry's value with a function that preserves an observation
preserves the observation of the whole association list. -/
theorem map_updateEntry_congr {κ α β : Type} [BEq κ] (k : κ) (f : α → α) (g : α → β)
    (l : List (κ × α)) (h : ∀ a, g (f a) = g a) :
    (updateEntry k f l).map (fun e => g e.2) = l.map (fun e => g e.2) := by
  induction l with
  | nil => rfl
  | cons e es ih =>
    simp only [updateEntry]
    by_cases he : (e.1 == k) = true
    · rw [if_pos he]; simp [h]
    · rw [if_neg (by simp [he])]; simp [ih]

/-- `create_profile` either leaves the nickname pool unchanged (failure) or
appends one lower-cased nickname that was not yet in the pool. -/
theorem create_profile_nickPool (m : ProfileManager) (n : String) :
    (m.create_profile n).2.nickPool = m.nickPool ∨
    ((m.create_profile n).2.nickPool = m.nickPool ++ [pyLower (pyStrip n)] ∧
     pyLower (pyStrip n) ∉ m.nickPool) := by
  simp only [ProfileManager.create_profile]
  by_cases h1 : m.profiles.length ≥ ProfileManager.MAX_PROFILES
  · rw [if_pos h1]; left; rfl
  rw [if_neg h1]
  by_cases h2 : pyStrip n = ""
  · rw [if_pos h2]; left; rfl
  rw [if_neg h2]
  by_cases h3 : (m.values.any fun p => pyLower p.nickname == pyLower (pyStrip n)) = true
  · rw [if_pos h3]; left; rfl
  · rw [if_neg h3]
    right
    refine ⟨by simp [ProfileManager.nickPool, ProfileManager.values,
      ProfileManager.createNew], ?_⟩
    intro hmem
    have hfor : ∀ p ∈ m.values, ¬ pyLower p.nickname = pyLower (pyStrip n) := by
      simpa using h3
    simp only [ProfileManager.nickPool, ProfileManager.values, List.map_map,
      List.mem_map, Function.comp] at hmem
    obtain ⟨e, he, hpe⟩ := hmem
    exact hfor e.2 (by simp only [ProfileManager.values, List.mem_map]; exact ⟨e, he, rfl⟩) hpe

/-- `delete_profile` removes at most one entry from the nickname pool. -/
theorem delete_profile_nickPool_sublist (m : ProfileManager) (pid : Nat) :
    ((m.delete_profile pid).2).nickPool.Sublist m.nickPool := by
  simp only [ProfileManager.delete_profile]
  by_cases h : (m.profiles.any fun e => e.1 == pid) = true
  · rw [if_pos h]
    simp only [ProfileManager.nickPool, ProfileManager.values, List.map_map]
    exact (List.eraseP_sublist _).map _
  · rw [if_neg h]

/-- `set_active_profile` only restamps `last_played`, keeping the pool. -/
theorem set_active_profile_nickPool (m : ProfileManager) (pid : Nat) :
    (m.set_active_profile pid).2.nickPool = m.nickPool := by
  simp only [ProfileManager.set_active_profile]
  by_cases h : (m.profiles.any fun e => e.1 == pid) = true
  · rw [if_pos h]
    simp only [ProfileManager.nickPool, ProfileManager.values, List.map_map]
    exact map_updateEntry_congr pid (fun p => { p with last_played := m.clock })
      (fun p => pyLower p.nickname) m.profiles (fun a => rfl)
  · rw [if_neg h]

/-- `update_profile` with no nickname write keeps the pool. -/
theorem update_profile_nickPool (m : ProfileManager) (pid : Nat)
    (us : List ProfileUpdate) (h : ∀ u ∈ us, u.isNickname = false) :
    (m.update_profile pid us).2.nickPool = m.nickPool := by
  simp only [ProfileManager.update_profile]
  by_cases hp : (lookupEntry pid m.profiles).isSome = true
  · rw [if_pos hp]
    simp only [ProfileManager.nickPool, ProfileManager.values, List.map_map]
    exact map_updateEntry_congr pid (fun p => p.setFields us)
      (fun p => pyLower p.nickname) m.profiles
      (fun a => by simp only []; rw [setFields_nickname a us h])
  · rw [if_neg hp]

/-- One public operation that does not write `nickname` preserves nickname
uniqueness. -/
theorem applyOp_nickUnique (m : ProfileManager) (op : ProfileOp)
    (hop : op.noNicknameWrite = true) (hm : m.NickUnique) :
    (m.applyOp op).NickUnique := by
  cases op with
  | create n =>
    show ((m.create_profile n).2).NickUnique
    rcases create_profile_nickPool m n with h | ⟨h1, h2⟩
    · unfold ProfileManager.NickUnique
      rw [h]; exact hm
    · unfold ProfileManager.NickUnique
      rw [h1]
      simp only [List.nodup_append]
      exact ⟨hm, List.nodup_singleton _, by simpa [List.disjoint_singleton] using h2⟩
  | delete pid =>
    exact (delete_profile_nickPool_sublist m pid).nodup hm
  | setActive pid =>
    show ((m.set_active_profile pid).2).NickUnique
    unfold ProfileManager.NickUnique
    rw [set_active_profile_nickPool]; exact hm
  | update pid us =>
    show ((m.update_profile pid us).2).NickUnique
    unfold ProfileManager.NickUnique
    rw [update_profile_nickPool m pid us (by simpa [ProfileOp.noNicknameWrite] using hop)]
    exact hm

/-- Running nickname-preserving operations keeps the invariant. -/
theorem run_nickUnique (m : ProfileManager) (ops : List ProfileOp)
    (hops : ∀ op ∈ ops, op.noNicknameWrite = true) (hm : m.NickUnique) :
    (m.run ops).NickUnique := by
  induction ops generalizing m with
  | nil => exact hm
  | cons op ops ih =>
    exact ih _ (fun o ho => hops o (by simp [ho]))
      (applyOp_nickUnique m op (hops op (by simp)) hm)

/-- **C2 counterexample**: from the empty store,
`create "Alice"; create "Bob"; update_profile(bobId, nickname="alice")` ends
with two stored profiles whose nicknames are case-insensitively equal —
`update_profile` performs no uniqueness check, so the invariant as claimed
(over all four public operations) fails. -/
theorem c2_counterexample :
    ¬ (ProfileManager.run {}
        [.create "Alice", .create "Bob", .update 1 [.nickname "alice"]]).NickUnique := by
  decide

/-- **C2 (amended)**: nickname uniqueness is an invariant of every sequence
of public operations from the empty store, provided no `update_profile` call
writes the `nickname` field (`create_profile` checks duplicates, the other
operations never touch nicknames; `update_profile` can write `nickname`
unchecked, which is the only way to break the invariant). -/
theorem c2_nickname_unique_invariant (ops : List ProfileOp)
    (hops : ∀ op ∈ ops, op.noNicknameWrite = true) :
    (ProfileManager.run {} ops).NickUnique :=
  run_nickUnique {} ops hops (by decide)

/-- Witness for the amended C2 on a concrete operation sequence. -/
theorem c2_nickname_unique_invariant_witness :
    (ProfileManager.run {}
      [.create "Alice", .create "bob", .setActive 1, .delete 0,
       .update 1 [.games_won 3, .experience 10]]).NickUnique :=
  c2_nickname_unique_invariant _ (by decide)

/-- With the backend unavailable the constructor skips scanning, effect
preloading and config restore: the state is the bare degraded record. -/
theorem init_unavailable (catalog : List (String × List Track)) (effects : List String)
    (config : List (String × PlaylistConfig)) :
    AudioManager.init false catalog effects config = { audioAvailable := false } := rfl

/-- One script step, unfolded. -/
theorem runScript_cons (m : AudioManager) (e : AudioEnv × AudioOp)
    (rest : List (AudioEnv × AudioOp)) :
    m.runScript (e :: rest)
      = ((m.step e.1 e.2).1 :: ((m.step e.1 e.2).2.runScript rest).1,
         ((m.step e.1 e.2).2.runScript rest).2) := rfl

/-- Every public operation on the degraded engine returns a falsy value and
leaves the state unchanged. -/
theorem step_degraded (env : AudioEnv) (op : AudioOp) :
    (({ audioAvailable := false } : AudioManager).step env op).1.falsy = true ∧
    (({ audioAvailable := false } : AudioManager).step env op).2
      = { audioAvailable := false } := by
  cases op <;>
    simp [AudioManager.step, AudioManager.request_music, AudioManager.play_next,
      AudioManager.play_previous, AudioManager.stop_music, AudioManager.pause_music,
      AudioManager.resume_music, AudioManager.play_effect, AudioManager.is_playing,
      AudioManager.is_paused, AudioManager.get_current_track_name, AudioResult.falsy]

/-- Scripts of public operations fix the degraded state and return only
falsy results. -/
theorem runScript_degraded (script : List (AudioEnv × AudioOp)) :
    (({ audioAvailable := false } : AudioManager).runScript script).2
      = { audioAvailable := false } ∧
    ∀ r ∈ (({ audioAvailable := false } : AudioManager).runScript script).1,
      r.falsy = true := by
  induction script with
  | nil => exact ⟨rfl, by simp [AudioManager.runScript]⟩
  | cons e rest ih =>
    obtain ⟨h1, h2⟩ := step_degraded e.1 e.2
    rw [runScript_cons, h2]
    refine ⟨ih.1, ?_⟩
    intro r hr
    rcases List.mem_cons.mp hr with h | h
    · subst h; exact h1
    · exact ih.2 r h

/-- **C4**: when the audio backend is unavailable at startup, every public
engine operation (`request_music`, `play_next`, `play_previous`,
`stop_music`, `pause_music`, `resume_music`, `play_effect`, `is_playing`,
`is_paused`, `get_current_track_name`) is a no-op returning a falsy value
(`None`/`False`), for every argument, every backend state and every
sequence of calls; totality of the model is the no-exception guarantee. -/
theorem c4_degraded_engine_noop (catalog : List (String × List Track))
    (effects : List String) (config : List (String × PlaylistConfig))
    (script : List (AudioEnv × AudioOp)) :
    ((AudioManager.init false catalog effects config).runScript script).2
      = AudioManager.init false catalog effects config ∧
    ∀ r ∈ ((AudioManager.init false catalog effects config).runScript script).1,
      r.falsy = true := by
  rw [init_unavailable]
  exact runScript_degraded script

/-- Updating a key then looking it up yields the updated value. -/
theorem lookupEntry_updateEntry_self {κ α : Type} [BEq κ] [LawfulBEq κ]
    (k : κ) (f : α → α) (l : List (κ × α)) :
    lookupEntry k (updateEntry k f l) = (lookupEntry k l).map f := by
  induction l with
  | nil => rfl
  | cons e es ih =>
    simp only [updateEntry]
    by_cases he : (e.1 == k) = true
    · rw [if_pos he]
      simp [lookupEntry, List.find?, he]
    · rw [if_neg (by simp [he])]
      simp only [lookupEntry, List.find?, he]
      simpa [lookupEntry] using ih

/-- Updating one key does not change the lookup of a different key. -/
theorem lookupEntry_updateEntry_ne {κ α : Type} [BEq κ] [LawfulBEq κ]
    (k k' : κ) (f : α → α) (l : List (κ × α)) (h : k' ≠ k) :
    lookupEntry k (updateEntry k' f l) = lookupEntry k l := by
  induction l with
  | nil => rfl
  | cons e es ih =>
    simp only [updateEntry]
    by_cases he : (e.1 == k') = true
    · rw [if_pos he]
      have hek : (e.1 == k) = false := by
        have : e.1 = k' := by simpa using he
        simpa using this ▸ h
      simp only [lookupEntry, List.find?]
      rw [show ((e.1 == k) : Bool) = false from hek]
    · rw [if_neg (by simp [he])]
      by_cases hek : (e.1 == k) = true
      · simp [lookupEntry, List.find?, hek]
      · simp only [lookupEntry, List.find?,
          show ((e.1 == k) : Bool) = false by simpa using hek]
        simpa [lookupEntry] using ih

/-- A category with a non-empty track list survives the catalog scan. -/
theorem lookupEntry_scanPlaylists (catalog : List (String × List Track))
    (cat : String) (ts : List Track)
    (h : lookupEntry cat catalog = some ts) (hne : ts ≠ []) :
    lookupEntry cat (scanPlaylists catalog) = some { name := cat, tracks := ts } := by
  induction catalog with
  | nil => simp [lookupEntry] at h
  | cons e es ih =>
    by_cases hc : (e.1 == cat) = true
    · have hets : e.2 = ts := by
        simpa [lookupEntry, List.find?, hc] using h
      have hcat : e.1 = cat := by simpa using hc
      have hene : e.2.isEmpty = false := by
        rw [hets]; simpa using hne
      simp only [scanPlaylists, List.filterMap_cons, hene]
      simp only [Bool.false_eq_true, if_false, lookupEntry, List.find?, hc]
      rw [hets, hcat]
      rfl
    · have h' : lookupEntry cat es = some ts := by
        simpa [lookupEntry, List.find?, hc] using h
      simp only [scanPlaylists, List.filterMap_cons]
      by_cases hene : e.2.isEmpty = true
      · rw [hene]
        simpa [scanPlaylists] using ih h'
      · rw [show e.2.isEmpty = false by simpa using hene]
        simp only [Bool.false_eq_true, if_false, lookupEntry, List.find?,
          show ((e.1 == cat) : Bool) = false by simpa using hc]
        simpa [scanPlaylists, lookupEntry] using ih h'

/-- One step of `_load_playlist_settings`, unfolded. -/
theorem loadPlaylistSettings_cons (ps : List (String × Playlist))
    (e : String × PlaylistConfig) (es : List (String × PlaylistConfig)) :
    loadPlaylistSettings ps (e :: es)
      = loadPlaylistSettings
          (if (lookupEntry e.1 ps).isSome
            then updateEntry e.1 (fun pl => applyConfig pl e.2) ps
            else ps)
          es := rfl

/-- Loading a config that does not mention `cat` leaves its playlist alone. -/
theorem lookupEntry_loadPlaylistSettings_not_mem
    (config : List (String × PlaylistConfig)) (ps : List (String × Playlist))
    (cat : String) (h : cat ∉ config.map (·.1)) :
    lookupEntry cat (loadPlaylistSettings ps config) = lookupEntry cat ps := by
  induction config generalizing ps with
  | nil => rfl
  | cons e es ih =>
    have he : e.1 ≠ cat := by
      intro hh; exact h (by simp [hh])
    rw [loadPlaylistSettings_cons]
    rw [ih _ (fun hm => h (by simp; right; simpa using hm))]
    by_cases hc : (lookupEntry e.1 ps).isSome = true
    · rw [if_pos hc]
      exact lookupEntry_updateEntry_ne cat e.1 _ ps he
    · rw [if_neg (by simp [hc])]

/-- Restoring a config whose keys are unique rewrites each mentioned
playlist through `applyConfig` exactly once. -/
theorem lookupEntry_loadPlaylistSettings
    (config : List (String × PlaylistConfig)) (ps : List (String × Playlist))
    (cat : String) (cfg : PlaylistConfig) (pl : Playlist)
    (hnodup : (config.map (·.1)).Nodup)
    (hmem : (cat, cfg) ∈ config)
    (hpl : lookupEntry cat ps = some pl) :
    lookupEntry cat (loadPlaylistSettings ps config) = some (applyConfig pl cfg) := by
  induction config generalizing ps with
  | nil => simp at hmem
  | cons e es ih =>
    have hhead : (∀ x ∈ es.map (·.1), e.1 ≠ x) ∧ (es.map (·.1)).Nodup := by
      have h2 := hnodup
      simp only [List.map_cons] at h2
      rw [List.nodup_cons] at h2
      exact ⟨fun x hx hex => h2.1 (hex ▸ hx), h2.2⟩
    rcases List.mem_cons.mp hmem with he | he
    · subst he
      rw [loadPlaylistSettings_cons]
      rw [if_pos (by simp [hpl])]
      rw [lookupEntry_loadPlaylistSettings_not_mem es _ cat
        (fun hm => hhead.1 cat hm rfl)]
      rw [lookupEntry_updateEntry_self cat _ ps, hpl]
      rfl
    · have hkey : e.1 ≠ cat :=
        hhead.1 cat (by simpa using List.mem_map_of_mem (fun x => x.1) he)
      have hnodup' : (es.map (·.1)).Nodup := hhead.2
      rw [loadPlaylistSettings_cons]
      have hps' : ∀ ps' : List (String × Playlist),
          lookupEntry cat ps' = some pl →
          lookupEntry cat (loadPlaylistSettings ps' es) = some (applyConfig pl cfg) :=
        fun ps' h => ih ps' hnodup' he h
      by_cases hc : (lookupEntry e.1 ps).isSome = true
      · rw [if_pos hc]
        exact hps' _ (by rw [lookupEntry_updateEntry_ne cat e.1 _ ps hkey]; exact hpl)
      · rw [if_neg (by simp [hc])]
        exact hps' _ hpl

/-- On a list with pairwise-distinct filenames, the filename determines the
track. -/
theorem filename_inj_of_nodup (l : List Track)
    (hnodup : (l.map (fun tr => tr.filename)).Nodup)
    (a b : Track) (ha : a ∈ l) (hb : b ∈ l)
    (hfn : a.filename = b.filename) : a = b :=
  List.inj_on_of_nodup_map hnodup ha hb hfn

/-- In a permutation of `x :: xs` with pairwise-distinct filenames, the first
track carrying `x.filename` is `x` itself. -/
theorem find?_filename_of_perm (x : Track) (xs m : List Track)
    (hperm : m.Perm (x :: xs))
    (hnodup : ((x :: xs).map (fun tr => tr.filename)).Nodup) :
    m.find? (fun tr => tr.filename == x.filename) = some x := by
  cases hf : m.find? (fun tr => tr.filename == x.filename) with
  | none =>
    exfalso
    have := List.find?_eq_none.mp hf x (hperm.mem_iff.mpr (by simp))
    simp at this
  | some t =>
    have htm : t ∈ x :: xs := hperm.mem_iff.mp (List.mem_of_find?_eq_some hf)
    have htf : t.filename = x.filename := by simpa using List.find?_some hf
    rw [filename_inj_of_nodup (x :: xs) hnodup t x htm (by simp) htf]

/-- Erasing that first track from the permutation leaves a permutation of
`xs`. -/
theorem eraseP_filename_perm (x : Track) (xs m : List Track)
    (hperm : m.Perm (x :: xs))
    (hnodup : ((x :: xs).map (fun tr => tr.filename)).Nodup) :
    (m.eraseP (fun tr => tr.filename == x.filename)).Perm xs := by
  have hx : x.filename ∉ xs.map (fun tr => tr.filename) := by
    have h2 := hnodup
    simp only [List.map_cons] at h2
    exact (List.nodup_cons.mp h2).1
  have hxs : ∀ b ∈ xs, (b.filename == x.filename) = false := by
    intro b hb
    have : b.filename ≠ x.filename := by
      intro hbe
      exact hx (hbe ▸ List.mem_map_of_mem (fun tr => tr.filename) hb)
    simpa using this
  have hsym : ∀ {a b : Track},
      ((a.filename == x.filename) = true → (b.filename == x.filename) = true → False) →
      ((b.filename == x.filename) = true → (a.filename == x.filename) = true → False) :=
    fun hab hfb hfa => hab hfa hfb
  have H : (x :: xs).Pairwise (fun a b =>
      (a.filename == x.filename) = true → (b.filename == x.filename) = true → False) := by
    rw [List.pairwise_cons]
    refine ⟨fun b hb _ hbp => by rw [hxs b hb] at hbp; exact Bool.false_ne_true hbp, ?_⟩
    refine List.pairwise_of_forall_mem_list ?_
    intro a ha b hb hap
    rw [hxs a ha] at hap
    exact absurd hap Bool.false_ne_true
  have herase := List.Perm.eraseP (fun tr => tr.filename == x.filename)
    ((hperm.pairwise_iff hsym).mpr H) hperm
  rwa [List.eraseP_cons_of_pos (by simp)] at herase

/-- The reorder loop of `_load_playlist_settings` rebuilds exactly the saved
order: applied to any permutation `m` of `l` (distinct filenames), ordering
by `l`'s filenames returns `l`. -/
theorem reorderBy_restores (l : List Track) (m : List Track)
    (hperm : m.Perm l) (hnodup : (l.map (fun tr => tr.filename)).Nodup) :
    reorderBy (l.map (fun tr => tr.filename)) m = l := by
  induction l generalizing m with
  | nil => simp [List.Perm.eq_nil hperm, reorderBy]
  | cons x xs ih =>
    have hfind := find?_filename_of_perm x xs m hperm hnodup
    simp only [List.map_cons, reorderBy, hfind]
    rw [ih (m.eraseP (fun tr => tr.filename == x.filename))
      (eraseP_filename_perm x xs m hperm hnodup)
      (by simpa using (List.nodup_cons.mp (by simpa using hnodup)).2)]

/-- A stored enabled-filename list recovers each track's `enabled` flag
(distinct filenames make the membership test exact). -/
theorem contains_enabled_filenames (tracks : List Track)
    (hnodup : (tracks.map (fun tr => tr.filename)).Nodup)
    (t : Track) (ht : t ∈ tracks) :
    (((tracks.filter (fun tr => tr.enabled)).map (fun tr => tr.filename)).contains
        t.filename) = t.enabled := by
  by_cases he : t.enabled = true
  · rw [he]
    exact List.elem_eq_true_of_mem
      (List.mem_map_of_mem _ (List.mem_filter.mpr ⟨ht, by simp [he]⟩))
  · have he' : t.enabled = false := by simpa using he
    rw [he']
    have hnot : t.filename
        ∉ (tracks.filter (fun tr => tr.enabled)).map (fun tr => tr.filename) := by
      intro hmem
      obtain ⟨u, hu, hufn⟩ := List.mem_map.mp hmem
      have humem := List.mem_filter.mp hu
      have hut : u = t := filename_inj_of_nodup tracks hnodup u t humem.1 ht hufn
      rw [hut, he'] at humem
      simp at humem
    simpa using hnot

/-- Per-playlist round trip: applying the saved config of playlist `p` to a
fresh scan of the same catalog tracks (`ts`, a permutation of `p`'s tracks
with all flags reset to the scan default `enabled := true`) restores `p`'s
track order, enabled flags, shuffle and repeat. -/
theorem applyConfig_savePlaylist (p : Playlist) (nm : String) (ts : List Track)
    (hperm : ts.Perm (p.tracks.map (fun tr => { tr with enabled := true })))
    (hnodup : (p.tracks.map (fun tr => tr.filename)).Nodup)
    (hsome : ∃ tr ∈ p.tracks, tr.enabled = true) :
    (applyConfig { name := nm, tracks := ts } (savePlaylist p)).tracks = p.tracks ∧
    (applyConfig { name := nm, tracks := ts } (savePlaylist p)).shuffle = p.shuffle ∧
    (applyConfig { name := nm, tracks := ts } (savePlaylist p)).repeat' = p.repeat' := by
  obtain ⟨t0, ht0, ht0e⟩ := hsome
  have henne : (((p.tracks.filter (fun tr => tr.enabled)).map
      (fun tr => tr.filename))).isEmpty = false := by
    have hm : t0.filename ∈ (p.tracks.filter (fun tr => tr.enabled)).map
        (fun tr => tr.filename) :=
      List.mem_map_of_mem _ (List.mem_filter.mpr ⟨ht0, by simp [ht0e]⟩)
    cases h : (p.tracks.filter (fun tr => tr.enabled)).map (fun tr => tr.filename) with
    | nil => rw [h] at hm; simp at hm
    | cons a l => simp
  have horder : ((p.tracks.map (fun tr => tr.filename))).isEmpty = false := by
    have hm : t0.filename ∈ p.tracks.map (fun tr => tr.filename) :=
      List.mem_map_of_mem _ ht0
    cases h : p.tracks.map (fun tr => tr.filename) with
    | nil => rw [h] at hm; simp at hm
    | cons a l => simp
  have hmapmap : (p.tracks.map (fun tr => ({ tr with enabled := true } : Track))).map (fun tr => ({ tr with enabled := ((p.tracks.filter (fun tr => tr.enabled)).map (fun tr => tr.filename)).contains tr.filename } : Track)) = p.tracks := by
    rw [List.map_map]
    have hpt : ∀ a ∈ p.tracks, ((fun tr => ({ tr with enabled := ((p.tracks.filter (fun tr => tr.enabled)).map (fun tr => tr.filename)).contains tr.filename } : Track)) ∘ (fun tr => ({ tr with enabled := true } : Track))) a = id a := by
      intro a ha
      have hc := contains_enabled_filenames p.tracks hnodup a ha
      cases a with
      | mk fn dn pa ca en => simpa using hc
    rw [List.map_congr_left hpt, List.map_id]
  have hperm1 : (ts.map (fun tr => ({ tr with enabled := ((p.tracks.filter (fun tr => tr.enabled)).map (fun tr => tr.filename)).contains tr.filename } : Track))).Perm p.tracks := by
    have hx := hperm.map (fun tr => ({ tr with enabled := ((p.tracks.filter (fun tr => tr.enabled)).map (fun tr => tr.filename)).contains tr.filename } : Track))
    rwa [hmapmap] at hx
  simp only [applyConfig, savePlaylist, henne, horder]
  simp only [Bool.false_eq_true, if_false]
  exact ⟨reorderBy_restores p.tracks _ hperm1 hnodup, trivial, trivial⟩

/-- **C3 counterexample**: scan a one-track catalog, disable that track
through `set_track_enabled` (a supported playlist-configuration operation),
save, and rebuild a fresh engine over the same catalog and the persisted
configuration: the restored playlist has the track enabled again — the saved
`enabled_tracks` list is empty, which `_load_playlist_settings` treats as
"absent" and skips — so the enabled-track subset is not reproduced. -/
theorem c3_counterexample :
    let catalog : List (String × List Track) := [("battle", [demoTrack "a"])]
    let orig := (AudioManager.init true catalog [] []).set_track_enabled
      "battle" "a.mp3" false
    let fresh := AudioManager.init true catalog [] orig.save_playlist_settings
    (lookupEntry "battle" fresh.playlists).map Playlist.get_enabled_tracks
      ≠ (lookupEntry "battle" orig.playlists).map Playlist.get_enabled_tracks := by
  decide

/-- **C3 (amended)**: the save/load round trip reproduces, for each category
of the original engine, the same track order, enabled subset, shuffle and
repeat flags, provided every category still has at least one enabled track
(a category whose tracks are all disabled is restored with every track
enabled, because the empty persisted `enabled_tracks` list is skipped).
Hypotheses: category keys are unique (a dict invariant), and each playlist
holds a permutation of its catalog entry's tracks with flags toggled, with
pairwise-distinct filenames (files scanned from one directory). -/
theorem c3_save_load_round_trip (m : AudioManager)
    (catalog : List (String × List Track)) (effects : List String)
    (hkeys : (m.playlists.map (·.1)).Nodup)
    (hrel : ∀ e ∈ m.playlists,
      ∃ ts, lookupEntry e.1 catalog = some ts
        ∧ ts.Perm (e.2.tracks.map (fun tr => ({ tr with enabled := true } : Track)))
        ∧ (e.2.tracks.map (fun tr => tr.filename)).Nodup
        ∧ ∃ tr ∈ e.2.tracks, tr.enabled = true) :
    ∀ e ∈ m.playlists,
      ∃ pl, lookupEntry e.1
          (AudioManager.init true catalog effects m.save_playlist_settings).playlists
          = some pl
        ∧ pl.tracks = e.2.tracks ∧ pl.shuffle = e.2.shuffle
        ∧ pl.repeat' = e.2.repeat' := by
  intro e he
  obtain ⟨ts, hts, hperm, hnodup, hsome⟩ := hrel e he
  have htsne : ts ≠ [] := by
    intro hnil
    obtain ⟨tr, htr, _⟩ := hsome
    rw [hnil] at hperm
    have hmapnil : e.2.tracks.map (fun tr => ({ tr with enabled := true } : Track)) = [] :=
      hperm.symm.eq_nil
    rw [List.map_eq_nil_iff.mp hmapnil] at htr
    simp at htr
  have hscan := lookupEntry_scanPlaylists catalog e.1 ts hts htsne
  have hcfgmem : (e.1, savePlaylist e.2) ∈ m.save_playlist_settings := by
    simp only [AudioManager.save_playlist_settings, List.mem_map]
    exact ⟨e, he, rfl⟩
  have hcfgkeys : (m.save_playlist_settings.map (·.1)).Nodup := by
    have : m.save_playlist_settings.map (·.1) = m.playlists.map (·.1) := by
      simp [AudioManager.save_playlist_settings, List.map_map, Function.comp]
    rw [this]
    exact hkeys
  have hload := lookupEntry_loadPlaylistSettings m.save_playlist_settings
    (scanPlaylists catalog) e.1 (savePlaylist e.2) _ hcfgkeys hcfgmem hscan
  obtain ⟨h1, h2, h3⟩ := applyConfig_savePlaylist e.2 e.1 ts hperm hnodup hsome
  exact ⟨applyConfig { name := e.1, tracks := ts } (savePlaylist e.2),
    hload, h1, h2, h3⟩

/-- Witness for the amended C3: the two-track demo catalog scanned, one
track disabled, then saved and reloaded into a fresh engine, checked at the
concrete `"battle"` category. -/
theorem c3_save_load_round_trip_witness :
    ∃ pl, lookupEntry "battle"
        (AudioManager.init true demoCatalog [] demoEngine.save_playlist_settings).playlists
        = some pl
      ∧ pl.tracks = [demoTrack "a" false, demoTrack "b"]
      ∧ pl.shuffle = false ∧ pl.repeat' = true := by
  have h := c3_save_load_round_trip demoEngine demoCatalog [] (by decide) ?_
    ("battle", ({ name := "battle", tracks := [demoTrack "a" false, demoTrack "b"] } : Playlist))
    (by decide)
  · exact h
  · intro e' he'
    rw [show demoEngine.playlists
        = [("battle", ({ name := "battle", tracks := [demoTrack "a" false, demoTrack "b"] } : Playlist))]
      from rfl] at he'
    rw [List.mem_singleton] at he'
    subst he'
    exact ⟨[demoTrack "a", demoTrack "b"], by decide, by decide, by decide,
      ⟨demoTrack "b", by decide, rfl⟩⟩
end CWK
